import Mathlib

/-!
Verification development for the Elemental pseudospectrum utilities
(`include/elemental/lapack-like/props/Pseudospectrum/Util.hpp`), the chunked
driver (`examples/lapack-like/ChunkedTriangularPseudospectrum.cpp`), and the
stubbed SOCP KKT assembly (`src/optimization/solvers/SOCP/affine/IPM/util/FullKKT.cpp`).

Modelling conventions:
* Column vectors (`Matrix<T>` objects of width 1) are modelled as `Vec α`:
  an explicit height together with a total entry function; `Set`/`Update`
  become function updates.  Two-dimensional matrices are `Mat α`.
* The scalar type `Real` is modelled by `FVal`: either NaN or a finite
  rational.  IEEE comparison semantics are kept: every comparison with a
  NaN operand is false, and arithmetic involving NaN produces NaN.  Division
  by zero produces a non-finite value, modelled as NaN; in the code it is
  only reached behind an `Abs(currEst) > 0` guard, so the distinction from
  IEEE infinity is never observable in the verified statements.
* The machine epsilon (`lapack::MachineEpsilon<Real>()`) is a parameter
  `machEps : ℚ`, so `NormCap` is `1/machEps` exactly as in the source.
* Source loops that write each index at most once are rendered as left
  folds over `List.range`, mirroring the C++ `for` loops statement by
  statement.
-/

namespace Elem

/-- A `Real` value: NaN or a finite rational. -/
inductive FVal where
  | nan : FVal
  | fin : ℚ → FVal
deriving DecidableEq

/-- True exactly on NaN, as `std::isnan`. -/
def FVal.isNan : FVal → Bool
  | .nan => true
  | .fin _ => false

/-- `Abs` on a `Real` value; NaN propagates. -/
def fabs : FVal → FVal
  | .nan => .nan
  | .fin q => .fin |q|

/-- Subtraction on `Real` values; NaN propagates. -/
def fsub : FVal → FVal → FVal
  | .fin a, .fin b => .fin (a - b)
  | _, _ => .nan

/-- Division on `Real` values; NaN propagates and division by zero is
non-finite (modelled as NaN; unreached behind the `Abs(currEst) > 0` guard). -/
def fdiv : FVal → FVal → FVal
  | .fin a, .fin b => if b = 0 then .nan else .fin (a / b)
  | _, _ => .nan

/-- IEEE `>=`: false whenever an operand is NaN. -/
def fge : FVal → FVal → Bool
  | .fin a, .fin b => decide (b ≤ a)
  | _, _ => false

/-- IEEE `>`: false whenever an operand is NaN. -/
def fgt : FVal → FVal → Bool
  | .fin a, .fin b => decide (b < a)
  | _, _ => false

/-- IEEE `<=`: false whenever an operand is NaN. -/
def fle : FVal → FVal → Bool
  | .fin a, .fin b => decide (a ≤ b)
  | _, _ => false

/-- A width-1 `Matrix<T>`: a height plus a total entry function. -/
@[ext]
structure Vec (α : Type) where
  height : ℕ
  entry : ℕ → α

/-- `x.Set(i,0,a)`. -/
def Vec.set {α : Type} (v : Vec α) (i : ℕ) (a : α) : Vec α :=
  ⟨v.height, fun k => if k = i then a else v.entry k⟩

/-- `x.Update(i,0,d)`. -/
def Vec.update (v : Vec ℤ) (i : ℕ) (d : ℤ) : Vec ℤ :=
  v.set i (v.entry i + d)

/-- Build a vector from a list (entries past the end take the default). -/
def Vec.ofList {α : Type} (l : List α) (d : α) : Vec α :=
  ⟨l.length, fun i => l.getD i d⟩

/-- `Zeros( v, n, 1 )`. -/
def zerosVec (n : ℕ) : Vec ℤ :=
  ⟨n, fun _ => 0⟩

/-- A general `Matrix<T>`: dimensions plus a total entry function. -/
@[ext]
structure Mat (α : Type) where
  rows : ℕ
  cols : ℕ
  entry : ℕ → ℕ → α

/-- Column `j` of a matrix, as used through `View( X, 0, j, m, 1 )`. -/
def Mat.col {α : Type} (X : Mat α) (j : ℕ) : Vec α :=
  ⟨X.rows, fun i => X.entry i j⟩

/-- Overwrite column `j` of a matrix. -/
def Mat.setCol {α : Type} (X : Mat α) (j : ℕ) (v : Vec α) : Mat α :=
  ⟨X.rows, X.cols, fun i k => if k = j then v.entry i else X.entry i k⟩

/-- `EntrywiseMap` on a matrix. -/
def matMap {α : Type} (f : α → α) (X : Mat α) : Mat α :=
  ⟨X.rows, X.cols, fun i j => f (X.entry i j)⟩

/-- `NormCap<Real>() = Real(1)/lapack::MachineEpsilon<Real>()`. -/
def NormCap (machEps : ℚ) : ℚ :=
  1 / machEps

/-- The per-shift convergence test inlined in both `FindConverged`
overloads: converged when `currEst >= normCap`, otherwise when
`Abs(currEst) > 0` and `Abs(lastEst-currEst)/Abs(currEst) <= maxDiff`. -/
def convergedTest (normCap maxDiff : ℚ) (lastEst currEst : FVal) : Bool :=
  if fge currEst (.fin normCap) then true
  else if fgt (fabs currEst) (.fin 0) then
    fle (fdiv (fabs (fsub lastEst currEst)) (fabs currEst)) (.fin maxDiff)
  else false

/-- Loop body of `CapEstimates`: read entry `j`, replace it by `normCap`
when it is NaN or `>= normCap`, and write it back. -/
def capStep (normCap : ℚ) (acc : Vec FVal) (j : ℕ) : Vec FVal :=
  let alpha := acc.entry j
  acc.set j (if alpha.isNan || fge alpha (.fin normCap) then .fin normCap else alpha)

/-- `pspec::CapEstimates` (Matrix overload): the loop over all entries. -/
def CapEstimates (machEps : ℚ) (activeEsts : Vec FVal) : Vec FVal :=
  (List.range activeEsts.height).foldl (capStep (NormCap machEps)) activeEsts

/-- Loop body of `FindConverged`: on convergence set `activeConverged(j) = 1`,
otherwise `activeItCounts.Update(j,0,1)`. -/
def fcStep (normCap maxDiff : ℚ) (lasts currs : Vec FVal)
    (p : Vec ℤ × Vec ℤ) (j : ℕ) : Vec ℤ × Vec ℤ :=
  if convergedTest normCap maxDiff (lasts.entry j) (currs.entry j) then
    (p.1.set j 1, p.2)
  else
    (p.1, p.2.update j 1)

/-- `pspec::FindConverged` (Matrix overload): returns the `activeConverged`
flags (initialized by `Zeros`) and the updated `activeItCounts`. -/
def FindConverged (machEps maxDiff : ℚ) (lastActiveEsts activeEsts : Vec FVal)
    (activeItCounts : Vec ℤ) : Vec ℤ × Vec ℤ :=
  (List.range activeEsts.height).foldl
    (fcStep (NormCap machEps) maxDiff lastActiveEsts activeEsts)
    (zerosVec activeEsts.height, activeItCounts)

/-- Loop body of the one-array `pspec::RestoreOrdering`: `x.Set( preimage(j), 0,
xCopy(j) )`; reads come from the copy taken before the loop, so they refer to
the original `x`. -/
def roStep {α : Type} (pre : Vec ℕ) (x : Vec α) (acc : Vec α) (j : ℕ) : Vec α :=
  acc.set (pre.entry j) (x.entry j)

/-- `pspec::RestoreOrdering` (one parallel array, Matrix overload). -/
def RestoreOrdering {α : Type} (pre : Vec ℕ) (x : Vec α) : Vec α :=
  (List.range pre.height).foldl (roStep pre x) x

/-- Loop body of the two-array `pspec::RestoreOrdering`: both `x` and `y` are
written at `preimage(j)` from their pre-loop copies inside one iteration. -/
def ro2Step {α β : Type} (pre : Vec ℕ) (x : Vec α) (y : Vec β)
    (acc : Vec α × Vec β) (j : ℕ) : Vec α × Vec β :=
  (acc.1.set (pre.entry j) (x.entry j), acc.2.set (pre.entry j) (y.entry j))

/-- `pspec::RestoreOrdering` (two parallel arrays, Matrix overload). -/
def RestoreOrdering2 {α β : Type} (pre : Vec ℕ) (x : Vec α) (y : Vec β) :
    Vec α × Vec β :=
  (List.range pre.height).foldl (ro2Step pre x y) (x, y)

/-- The optimized sequential `pspec::ReshapeIntoGrid`: resize to
`realSize × imagSize` with leading dimension `realSize` and `MemCopy` the flat
buffer, so `X(i,j) = x(i + j·realSize)`. -/
def ReshapeIntoGrid {α : Type} (realSize imagSize : ℕ) (x : Vec α) : Mat α :=
  ⟨realSize, imagSize, fun i j => x.entry (i + j * realSize)⟩

/-- The per-column layout of the `DistMatrix` overload of
`pspec::ReshapeIntoGrid` (and of the disabled `#if 0` sequential block): the
grid is resized to `realSize × imagSize` and, for each `j < realSize`, the
height-`imagSize` column view at `(0,j)` is assigned from vector entries
`j·imagSize .. j·imagSize + imagSize - 1`; positions not covered by those
assignments keep the unspecified post-resize contents, modelled by `init`. -/
def ReshapeIntoGridPerColumn {α : Type} (realSize imagSize : ℕ) (x : Vec α)
    (init : α) : Mat α :=
  ⟨realSize, imagSize, fun i j =>
    if j < realSize ∧ i < imagSize then x.entry (j * imagSize + i) else init⟩

/-- Result of one `pspec::Snapshot` call: the two save counters (passed by
reference in the source) and the grids handed to the external `Write`
collaborator on each channel, paired with the constructed base names. -/
structure SnapshotOut where
  numSaveCount : ℤ
  imgSaveCount : ℤ
  numWrites : List (String × Mat FVal)
  imgWrites : List (String × Mat FVal)

/-- `pspec::Snapshot` (Matrix overload).  The external `Log` used by the
image-channel `EntrywiseMap` lambda is a parameter `logFn`; the two image
`Write` calls (plain and `-discrete`) both receive the logged grid. -/
def Snapshot (logFn : FVal → FVal) (estimates : Vec FVal) (preimage : Vec ℕ)
    (numIts : ℤ) (deflate : Bool) (realSize imagSize : ℕ)
    (numSaveCount numFreq : ℤ) (numBase : String)
    (imgSaveCount imgFreq : ℤ) (imgBase : String) : SnapshotOut :=
  if realSize ≠ 0 ∧ imagSize ≠ 0 then
    let numSave : Bool := decide (0 < numFreq ∧ numFreq ≤ numSaveCount)
    let imgSave : Bool := decide (0 < imgFreq ∧ imgFreq ≤ imgSaveCount)
    let invNorms := if deflate then RestoreOrdering preimage estimates
                    else estimates
    let estMap := ReshapeIntoGrid realSize imagSize invNorms
    ⟨if numSave then 0 else numSaveCount,
     if imgSave then 0 else imgSaveCount,
     if numSave then [(numBase ++ "-" ++ toString numIts, estMap)] else [],
     if imgSave then
       [(imgBase ++ "-" ++ toString numIts, matMap logFn estMap),
        (imgBase ++ "-" ++ toString numIts ++ "-discrete", matMap logFn estMap)]
     else []⟩
  else
    ⟨numSaveCount, imgSaveCount, [], []⟩

/-- Scale a column in place: `Scale( c, x )`. -/
def scaleVec (c : ℚ) (v : Vec ℚ) : Vec ℚ :=
  ⟨v.height, fun i => c * v.entry i⟩

/-- Body of the `pspec::FixColumns` loop for one column: if the precomputed
norm is zero, `MakeGaussian` refills the column (modelled by the external
random oracle's sample `g`) and the norm is recomputed on the fresh column;
then the column is scaled by the reciprocal of the (possibly recomputed)
norm.  Returns the scaled column together with the divisor that was used.
`nrm` models the external Euclidean column norm (`blas::Nrm2`, and
`FrobeniusNorm` on a single column). -/
def fixColumn (nrm : Vec ℚ → ℚ) (g : Vec ℚ) (x : Vec ℚ) : Vec ℚ × ℚ :=
  let norm := nrm x
  if norm = 0 then (scaleVec (1 / nrm g) g, nrm g)
  else (scaleVec (1 / norm) x, norm)

/-- Loop body of `pspec::FixColumns` over columns; `ColumnNorms` precomputes
every norm from the original matrix before the loop, and iteration `j`
rewrites only column `j`, so reading column `j` of the accumulator is
reading the original column. -/
def fixStep (nrm : Vec ℚ → ℚ) (gauss : ℕ → Vec ℚ) (X : Mat ℚ)
    (acc : Mat ℚ) (j : ℕ) : Mat ℚ :=
  acc.setCol j (fixColumn nrm (gauss j) (X.col j)).1

/-- `pspec::FixColumns` (Matrix overload); `gauss` is the external Gaussian
sampler (`MakeGaussian`), one fresh column per column index. -/
def FixColumns (nrm : Vec ℚ → ℚ) (gauss : ℕ → Vec ℚ) (X : Mat ℚ) : Mat ℚ :=
  (List.range X.cols).foldl (fixStep nrm gauss X) X

/-- The divisor `FixColumns` uses for column `j`'s reciprocal scaling. -/
def FixColumnsDivisor (nrm : Vec ℚ → ℚ) (gauss : ℕ → Vec ℚ) (X : Mat ℚ)
    (j : ℕ) : ℚ :=
  (fixColumn nrm (gauss j) (X.col j)).2

/-- `xBlock = realSize / numReal` from the chunked driver.  The driver stores
the chunk count in a `double`; for chunk counts in `[1, realSize]` the
double division of the two exactly-representable integers followed by the
conversion to `Int` (truncation toward zero) coincides with integer
division, so the block size is embedded as natural division. -/
def chunkBlock (total numChunks : ℕ) : ℕ :=
  total / numChunks

/-- `xLeftover = realSize - (numReal-1)*xBlock` from the chunked driver; the
mixed `double`/`Int` products and differences are exact on these
integer-valued operands. -/
def chunkLeftover (total numChunks : ℕ) : ℤ :=
  (total : ℤ) - ((numChunks : ℤ) - 1) * (chunkBlock total numChunks : ℤ)

/-- `realChunkSize = ( realChunk==numReal-1 ? xLeftover : xBlock )` from the
chunked driver (identically for the imaginary axis). -/
def chunkSize (total numChunks k : ℕ) : ℤ :=
  if k = numChunks - 1 then chunkLeftover total numChunks
  else (chunkBlock total numChunks : ℤ)

/-- A `SparseMatrix<Real>`/`DistSparseMatrix<Real>`: dimensions plus a
coordinate entry list. -/
structure SparseMat (α : Type) where
  rows : ℕ
  cols : ℕ
  entries : List (ℕ × ℕ × α)

/-- The message of the `LogicError` raised by every `socp::affine::KKT`
overload. -/
def kktNotFinishedMsg : String :=
  "This routine is not yet finished"

/-- `socp::affine::KKT` (dense overload): the body is
`LogicError("This routine is not yet finished")` followed only by
commented-out code, so the call fails on entry and `J` is returned exactly
as given. -/
def socpAffineKKT (A G : Mat ℚ) (s z : Vec ℚ) (orders firstInds : Vec ℤ)
    (J : Mat ℚ) (onlyLower : Bool) : Except String Unit × Mat ℚ :=
  (Except.error kktNotFinishedMsg, J)

/-- `socp::affine::KKT` (AbstractDistMatrix overload): same immediate
`LogicError` stub. -/
def socpAffineKKTDist (A G : Mat ℚ) (s z : Vec ℚ) (orders firstInds : Vec ℤ)
    (J : Mat ℚ) (onlyLower : Bool) : Except String Unit × Mat ℚ :=
  (Except.error kktNotFinishedMsg, J)

/-- `socp::affine::KKT` (SparseMatrix overload): same immediate
`LogicError` stub. -/
def socpAffineKKTSparse (A G : SparseMat ℚ) (s z : Vec ℚ)
    (orders firstInds : Vec ℤ) (J : SparseMat ℚ) (onlyLower : Bool) :
    Except String Unit × SparseMat ℚ :=
  (Except.error kktNotFinishedMsg, J)

/-- `socp::affine::KKT` (DistSparseMatrix overload): same immediate
`LogicError` stub. -/
def socpAffineKKTDistSparse (A G : SparseMat ℚ) (s z : Vec ℚ)
    (orders firstInds : Vec ℤ) (J : SparseMat ℚ) (onlyLower : Bool) :
    Except String Unit × SparseMat ℚ :=
  (Except.error kktNotFinishedMsg, J)

/-! Concrete fixtures used by the witness theorems. -/

/-- A height-2 estimate vector. -/
def wEst1 : Vec FVal := Vec.ofList [FVal.fin 1, FVal.fin 2] FVal.nan

/-- A height-2 integer counter vector. -/
def wZ2 : Vec ℤ := Vec.ofList [0, 0] 0

/-- The transposition preimage on two shifts. -/
def wPreSwap : Vec ℕ := Vec.ofList [1, 0] 0

/-- The identity preimage on two shifts. -/
def wPreId : Vec ℕ := Vec.ofList [0, 1] 0

/-- A height-2 rational vector. -/
def wQ2 : Vec ℚ := Vec.ofList [10, 20] 0

/-- A height-4 rational vector. -/
def wQ4 : Vec ℚ := Vec.ofList [1, 2, 3, 4] 0

/-- A concrete column-norm surrogate for the witness: zero exactly on zero
columns, one otherwise. -/
def wNrm (v : Vec ℚ) : ℚ :=
  if (List.range v.height).all (fun i => v.entry i == 0) then 0 else 1

/-- A concrete Gaussian-sampler stand-in: every draw is the all-ones column. -/
def wGauss (j : ℕ) : Vec ℚ :=
  Vec.ofList [1, 1] 0

/-- A 2×2 matrix whose first column is zero. -/
def wX : Mat ℚ := ⟨2, 2, fun _ j => if j = 0 then 0 else 3⟩

/-! Generic facts about the write loops. -/

/-- Folding the one-array restore step over indices that never map to `i`
leaves entry `i` untouched. -/
theorem roFold_frame {α : Type} (pre : Vec ℕ) (x : Vec α) :
    ∀ (l : List ℕ) (acc : Vec α) (i : ℕ), (∀ j ∈ l, pre.entry j ≠ i) →
      (l.foldl (roStep pre x) acc).entry i = acc.entry i := by
  intro l
  induction l with
  | nil => intro acc i _; rfl
  | cons a t ih =>
    intro acc i h
    rw [List.foldl_cons, ih _ i (fun j hj => h j (List.mem_cons_of_mem a hj))]
    have hai : i ≠ pre.entry a := fun hh => h a (List.mem_cons_self a t) hh.symm
    simp [roStep, Vec.set, hai]

/-- The one-array restore loop writes `x(j)` at `preimage(j)` when no other
processed index collides with `preimage(j)`. -/
theorem roFold_get {α : Type} (pre : Vec ℕ) (x : Vec α) :
    ∀ (l : List ℕ) (acc : Vec α) (j : ℕ), j ∈ l → l.Nodup →
      (∀ k ∈ l, pre.entry k = pre.entry j → k = j) →
      (l.foldl (roStep pre x) acc).entry (pre.entry j) = x.entry j := by
  intro l
  induction l with
  | nil => intro acc j hj _ _; cases hj
  | cons a t ih =>
    intro acc j hj hnd hinj
    rw [List.foldl_cons]
    rcases List.mem_cons.mp hj with rfl | hjt
    · have hnotin : j ∉ t := (List.nodup_cons.mp hnd).1
      have hframe : ∀ k ∈ t, pre.entry k ≠ pre.entry j := by
        intro k hk hek
        exact hnotin (by rwa [hinj k (List.mem_cons_of_mem _ hk) hek] at hk)
      rw [roFold_frame pre x t _ _ hframe]
      simp [roStep, Vec.set]
    · exact ih _ j hjt (List.nodup_cons.mp hnd).2
        (fun k hk he => hinj k (List.mem_cons_of_mem _ hk) he)

/-- When the preimage is the identity on every processed index, each restore
step is a no-op starting from the source vector. -/
theorem roFold_id {α : Type} (pre : Vec ℕ) (x : Vec α) :
    ∀ (l : List ℕ), (∀ j ∈ l, pre.entry j = j) →
      l.foldl (roStep pre x) x = x := by
  intro l
  induction l with
  | nil => intro _; rfl
  | cons a t ih =>
    intro h
    rw [List.foldl_cons]
    have hstep : roStep pre x x a = x := by
      refine Vec.ext rfl (funext fun k => ?_)
      rw [show (roStep pre x x a).entry k
            = if k = pre.entry a then x.entry a else x.entry k from rfl,
          h a (List.mem_cons_self a t)]
      by_cases hk : k = a <;> simp [hk]
    rw [hstep]
    exact ih (fun j hj => h j (List.mem_cons_of_mem _ hj))

/-- The two-array restore loop is the product of the two one-array loops. -/
theorem ro2Fold_eq {α β : Type} (pre : Vec ℕ) (x : Vec α) (y : Vec β) :
    ∀ (l : List ℕ) (acc : Vec α × Vec β),
      l.foldl (ro2Step pre x y) acc =
        (l.foldl (roStep pre x) acc.1, l.foldl (roStep pre y) acc.2) := by
  intro l
  induction l with
  | nil => intro acc; rfl
  | cons a t ih =>
    intro acc
    rw [List.foldl_cons, List.foldl_cons, List.foldl_cons, ih]
    rfl

/-- C3: on a permutation preimage, the two-array RestoreOrdering applies the
identical permutation to both parallel arrays, so `x'[preimage[j]] = x[j]`
and `y'[preimage[j]] = y[j]` for every `j`, corresponding entries remain
paired, and every input entry appears exactly once in the restored output. -/
theorem restoreOrdering_two_array_pairs {α β : Type} (pre : Vec ℕ)
    (x : Vec α) (y : Vec β) (n : ℕ)
    (hp : pre.height = n) (hx : x.height = n) (hy : y.height = n)
    (hb : ∀ j < n, pre.entry j < n)
    (hinj : ∀ j < n, ∀ k < n, pre.entry j = pre.entry k → j = k) :
    (∀ j < n, (RestoreOrdering2 pre x y).1.entry (pre.entry j) = x.entry j ∧
              (RestoreOrdering2 pre x y).2.entry (pre.entry j) = y.entry j) ∧
    (∀ i < n, ∃ j, j < n ∧ pre.entry j = i ∧
        (RestoreOrdering2 pre x y).1.entry i = x.entry j ∧
        (RestoreOrdering2 pre x y).2.entry i = y.entry j) := by
  have hpair : ∀ j < n, (RestoreOrdering2 pre x y).1.entry (pre.entry j) = x.entry j ∧
      (RestoreOrdering2 pre x y).2.entry (pre.entry j) = y.entry j := by
    intro j hj
    have hmem : j ∈ List.range pre.height := by
      rw [hp]; exact List.mem_range.mpr hj
    have hcoll : ∀ k ∈ List.range pre.height,
        pre.entry k = pre.entry j → k = j := by
      intro k hk he
      have hkn : k < n := by rw [← hp]; exact List.mem_range.mp hk
      exact hinj k hkn j hj he
    constructor
    · rw [RestoreOrdering2, ro2Fold_eq]
      exact roFold_get pre x _ _ j hmem (List.nodup_range _) hcoll
    · rw [RestoreOrdering2, ro2Fold_eq]
      exact roFold_get pre y _ _ j hmem (List.nodup_range _) hcoll
  refine ⟨hpair, ?_⟩
  intro i hi
  have hsurj : Function.Surjective
      (fun j : Fin n => (⟨pre.entry j, hb j j.2⟩ : Fin n)) := by
    rw [← Finite.injective_iff_surjective]
    intro a b hab
    exact Fin.ext (hinj a a.2 b b.2 (congrArg Fin.val hab))
  obtain ⟨j, hjv⟩ := hsurj ⟨i, hi⟩
  have hji : pre.entry j.1 = i := congrArg Fin.val hjv
  refine ⟨j.1, j.2, hji, ?_, ?_⟩
  · rw [← hji]; exact (hpair j.1 j.2).1
  · rw [← hji]; exact (hpair j.1 j.2).2

/-- Witness for C3 at the two-element transposition. -/
theorem restoreOrdering_two_array_pairs_witness :
    (wPreSwap.height = 2 ∧ wQ2.height = 2 ∧ wZ2.height = 2 ∧
      (∀ j < 2, wPreSwap.entry j < 2) ∧
      (∀ j < 2, ∀ k < 2, wPreSwap.entry j = wPreSwap.entry k → j = k)) ∧
    ((∀ j < 2, (RestoreOrdering2 wPreSwap wQ2 wZ2).1.entry (wPreSwap.entry j) = wQ2.entry j ∧
              (RestoreOrdering2 wPreSwap wQ2 wZ2).2.entry (wPreSwap.entry j) = wZ2.entry j) ∧
    (∀ i < 2, ∃ j, j < 2 ∧ wPreSwap.entry j = i ∧
        (RestoreOrdering2 wPreSwap wQ2 wZ2).1.entry i = wQ2.entry j ∧
        (RestoreOrdering2 wPreSwap wQ2 wZ2).2.entry i = wZ2.entry j)) :=
  ⟨⟨rfl, rfl, rfl, by decide, by decide⟩,
   restoreOrdering_two_array_pairs wPreSwap wQ2 wZ2 2 rfl rfl rfl
     (by decide) (by decide)⟩

/-- C7: with the identity preimage, RestoreOrdering returns its input
unchanged, for one vector and for a pair of parallel vectors. -/
theorem restoreOrdering_identity_noop {α β : Type} (pre : Vec ℕ)
    (x : Vec α) (y : Vec β)
    (hid : ∀ j < pre.height, pre.entry j = j) :
    RestoreOrdering pre x = x ∧ RestoreOrdering2 pre x y = (x, y) := by
  have hmem : ∀ j ∈ List.range pre.height, pre.entry j = j :=
    fun j hj => hid j (List.mem_range.mp hj)
  constructor
  · exact roFold_id pre x _ hmem
  · rw [RestoreOrdering2, ro2Fold_eq, roFold_id pre x _ hmem,
      roFold_id pre y _ hmem]

/-- Witness for C7 at the two-element identity preimage. -/
theorem restoreOrdering_identity_noop_witness :
    (∀ j < wPreId.height, wPreId.entry j = j) ∧
    (RestoreOrdering wPreId wQ2 = wQ2 ∧
     RestoreOrdering2 wPreId wQ2 wZ2 = (wQ2, wZ2)) :=
  ⟨by decide, restoreOrdering_identity_noop wPreId wQ2 wZ2 (by decide)⟩

/-- Folding the capping step over indices other than `i` leaves entry `i`
untouched. -/
theorem capFold_frame (normCap : ℚ) :
    ∀ (l : List ℕ) (acc : Vec FVal) (i : ℕ), i ∉ l →
      (l.foldl (capStep normCap) acc).entry i = acc.entry i := by
  intro l
  induction l with
  | nil => intro acc i _; rfl
  | cons a t ih =>
    intro acc i h
    rw [List.foldl_cons, ih _ i (fun hit => h (List.mem_cons_of_mem a hit))]
    have hia : i ≠ a := fun hh => h (hh ▸ List.mem_cons_self a t)
    simp [capStep, Vec.set, hia]

/-- The capping loop rewrites entry `j` from its original value: NaN and
values at or above the cap become the cap, all others are written back
unchanged. -/
theorem capFold_get (normCap : ℚ) :
    ∀ (l : List ℕ) (acc : Vec FVal) (j : ℕ), j ∈ l → l.Nodup →
      (l.foldl (capStep normCap) acc).entry j =
        (if (acc.entry j).isNan || fge (acc.entry j) (.fin normCap)
         then .fin normCap else acc.entry j) := by
  intro l
  induction l with
  | nil => intro acc j hj _; cases hj
  | cons a t ih =>
    intro acc j hj hnd
    rw [List.foldl_cons]
    rcases List.mem_cons.mp hj with rfl | hjt
    · rw [capFold_frame normCap t _ j (List.nodup_cons.mp hnd).1]
      simp [capStep, Vec.set]
    · have hja : j ≠ a := by
        rintro rfl
        exact (List.nodup_cons.mp hnd).1 hjt
      rw [ih _ j hjt (List.nodup_cons.mp hnd).2]
      simp [capStep, Vec.set, hja]

/-- Folding the convergence step over indices other than `i` changes neither
the flag vector nor the counter vector at `i`. -/
theorem fcFold_frame (normCap maxDiff : ℚ) (lasts currs : Vec FVal) :
    ∀ (l : List ℕ) (p : Vec ℤ × Vec ℤ) (i : ℕ), i ∉ l →
      ((l.foldl (fcStep normCap maxDiff lasts currs) p).1.entry i = p.1.entry i ∧
       (l.foldl (fcStep normCap maxDiff lasts currs) p).2.entry i = p.2.entry i) := by
  intro l
  induction l with
  | nil => intro p i _; exact ⟨rfl, rfl⟩
  | cons a t ih =>
    intro p i h
    rw [List.foldl_cons]
    have hia : i ≠ a := fun hh => h (hh ▸ List.mem_cons_self a t)
    have hrec := ih (fcStep normCap maxDiff lasts currs p a) i
      (fun hit => h (List.mem_cons_of_mem a hit))
    refine ⟨?_, ?_⟩
    · rw [hrec.1]
      by_cases hc : convergedTest normCap maxDiff (lasts.entry a) (currs.entry a) <;>
        simp [fcStep, Vec.set, Vec.update, hc, hia]
    · rw [hrec.2]
      by_cases hc : convergedTest normCap maxDiff (lasts.entry a) (currs.entry a) <;>
        simp [fcStep, Vec.set, Vec.update, hc, hia]

/-- The convergence loop, at a processed index `j`: the flag becomes `1`
exactly on convergence, the counter is incremented by one exactly on
non-convergence. -/
theorem fcFold_get (normCap maxDiff : ℚ) (lasts currs : Vec FVal) :
    ∀ (l : List ℕ) (p : Vec ℤ × Vec ℤ) (j : ℕ), j ∈ l → l.Nodup →
      ((l.foldl (fcStep normCap maxDiff lasts currs) p).1.entry j =
        (if convergedTest normCap maxDiff (lasts.entry j) (currs.entry j)
         then 1 else p.1.entry j) ∧
       (l.foldl (fcStep normCap maxDiff lasts currs) p).2.entry j =
        (if convergedTest normCap maxDiff (lasts.entry j) (currs.entry j)
         then p.2.entry j else p.2.entry j + 1)) := by
  intro l
  induction l with
  | nil => intro p j hj _; cases hj
  | cons a t ih =>
    intro p j hj hnd
    rw [List.foldl_cons]
    rcases List.mem_cons.mp hj with rfl | hjt
    · have hframe := fcFold_frame normCap maxDiff lasts currs t
        (fcStep normCap maxDiff lasts currs p j) j (List.nodup_cons.mp hnd).1
      rw [hframe.1, hframe.2]
      by_cases hc : convergedTest normCap maxDiff (lasts.entry j) (currs.entry j) <;>
        simp [fcStep, Vec.set, Vec.update, hc]
    · have hja : j ≠ a := by
        rintro rfl
        exact (List.nodup_cons.mp hnd).1 hjt
      have hrec := ih (fcStep normCap maxDiff lasts currs p a) j hjt
        (List.nodup_cons.mp hnd).2
      have hsame : (fcStep normCap maxDiff lasts currs p a).1.entry j = p.1.entry j ∧
          (fcStep normCap maxDiff lasts currs p a).2.entry j = p.2.entry j := by
        by_cases hc : convergedTest normCap maxDiff (lasts.entry a) (currs.entry a) <;>
          exact ⟨by simp [fcStep, Vec.set, Vec.update, hc, hja],
                 by simp [fcStep, Vec.set, Vec.update, hc, hja]⟩
      rw [hrec.1, hrec.2, hsame.1, hsame.2]
      exact ⟨rfl, rfl⟩

/-- The inlined convergence test, written as the spec's disjunction. -/
theorem convergedTest_iff (normCap maxDiff : ℚ) (lastEst currEst : FVal) :
    convergedTest normCap maxDiff lastEst currEst = true ↔
      (fge currEst (.fin normCap) = true ∨
       (fgt (fabs currEst) (.fin 0) = true ∧
        fle (fdiv (fabs (fsub lastEst currEst)) (fabs currEst)) (.fin maxDiff)
          = true)) := by
  unfold convergedTest
  cases hge : fge currEst (.fin normCap) with
  | true => simp [hge]
  | false =>
    cases hgt : fgt (fabs currEst) (.fin 0) with
    | true => simp [hge, hgt]
    | false => simp [hge, hgt]

/-- A zero estimate below a positive cap never passes the convergence test. -/
theorem convergedTest_zero (normCap maxDiff : ℚ) (lastEst : FVal)
    (hcap : 0 < normCap) :
    convergedTest normCap maxDiff lastEst (.fin 0) = false := by
  unfold convergedTest
  simp [fge, fgt, fabs, not_le.mpr hcap]

/-- C1: FindConverged marks shift `j` converged exactly when
`activeEsts[j] >= normCap` or `|activeEsts[j]| > 0` and
`|lastActiveEsts[j] - activeEsts[j]| / |activeEsts[j]| <= maxDiff`; it
increments `activeItCounts[j]` by exactly one exactly when the shift is not
marked converged, leaving converged counters unchanged; and a zero estimate
below the cap is never marked converged. -/
theorem findConverged_marks_and_counts (machEps maxDiff : ℚ)
    (lastActiveEsts activeEsts : Vec FVal) (activeItCounts : Vec ℤ)
    (hl : lastActiveEsts.height = activeEsts.height)
    (hc : activeItCounts.height = activeEsts.height)
    (heps : 0 < machEps) (j : ℕ) (hj : j < activeEsts.height) :
    ((FindConverged machEps maxDiff lastActiveEsts activeEsts activeItCounts).1.entry j =
       (if convergedTest (NormCap machEps) maxDiff (lastActiveEsts.entry j)
            (activeEsts.entry j) then 1 else 0)) ∧
    ((FindConverged machEps maxDiff lastActiveEsts activeEsts activeItCounts).1.entry j = 1 ↔
       (fge (activeEsts.entry j) (.fin (NormCap machEps)) = true ∨
        (fgt (fabs (activeEsts.entry j)) (.fin 0) = true ∧
         fle (fdiv (fabs (fsub (lastActiveEsts.entry j) (activeEsts.entry j)))
              (fabs (activeEsts.entry j))) (.fin maxDiff) = true))) ∧
    ((FindConverged machEps maxDiff lastActiveEsts activeEsts activeItCounts).2.entry j =
       (if convergedTest (NormCap machEps) maxDiff (lastActiveEsts.entry j)
            (activeEsts.entry j)
        then activeItCounts.entry j else activeItCounts.entry j + 1)) ∧
    (activeEsts.entry j = .fin 0 →
      (FindConverged machEps maxDiff lastActiveEsts activeEsts activeItCounts).1.entry j = 0) := by
  have hmem : j ∈ List.range activeEsts.height := List.mem_range.mpr hj
  have hmain := fcFold_get (NormCap machEps) maxDiff lastActiveEsts activeEsts
    (List.range activeEsts.height) (zerosVec activeEsts.height, activeItCounts)
    j hmem (List.nodup_range _)
  have hflag : (FindConverged machEps maxDiff lastActiveEsts activeEsts activeItCounts).1.entry j =
      (if convergedTest (NormCap machEps) maxDiff (lastActiveEsts.entry j)
           (activeEsts.entry j) then 1 else 0) := by
    rw [FindConverged, hmain.1]
    rfl
  have hcount : (FindConverged machEps maxDiff lastActiveEsts activeEsts activeItCounts).2.entry j =
      (if convergedTest (NormCap machEps) maxDiff (lastActiveEsts.entry j)
           (activeEsts.entry j)
       then activeItCounts.entry j else activeItCounts.entry j + 1) := by
    rw [FindConverged, hmain.2]
  refine ⟨hflag, ?_, hcount, ?_⟩
  · rw [hflag, ← convergedTest_iff (NormCap machEps) maxDiff]
    by_cases hcv : convergedTest (NormCap machEps) maxDiff (lastActiveEsts.entry j)
        (activeEsts.entry j) <;> simp [hcv]
  · intro hzero
    have hpos : 0 < NormCap machEps := by
      unfold NormCap
      exact one_div_pos.mpr heps
    rw [hflag, hzero, convergedTest_zero (NormCap machEps) maxDiff _ hpos]
    simp

/-- Witness for C1 on a one-shift system with equal last/current estimate. -/
theorem findConverged_marks_and_counts_witness :
    (wEst1.height = wEst1.height ∧ wZ2.height = wEst1.height ∧
      (0:ℚ) < 1/2 ∧ 0 < wEst1.height) ∧
    (((FindConverged (1/2) (1/10) wEst1 wEst1 wZ2).1.entry 0 =
       (if convergedTest (NormCap (1/2)) (1/10) (wEst1.entry 0)
            (wEst1.entry 0) then 1 else 0)) ∧
    ((FindConverged (1/2) (1/10) wEst1 wEst1 wZ2).1.entry 0 = 1 ↔
       (fge (wEst1.entry 0) (.fin (NormCap (1/2))) = true ∨
        (fgt (fabs (wEst1.entry 0)) (.fin 0) = true ∧
         fle (fdiv (fabs (fsub (wEst1.entry 0) (wEst1.entry 0)))
              (fabs (wEst1.entry 0))) (.fin (1/10)) = true))) ∧
    ((FindConverged (1/2) (1/10) wEst1 wEst1 wZ2).2.entry 0 =
       (if convergedTest (NormCap (1/2)) (1/10) (wEst1.entry 0)
            (wEst1.entry 0)
        then wZ2.entry 0 else wZ2.entry 0 + 1)) ∧
    (wEst1.entry 0 = .fin 0 →
      (FindConverged (1/2) (1/10) wEst1 wEst1 wZ2).1.entry 0 = 0)) :=
  ⟨⟨rfl, rfl, by norm_num, by decide⟩,
   findConverged_marks_and_counts (1/2) (1/10) wEst1 wEst1 wZ2 rfl rfl
     (by norm_num) 0 (by decide)⟩

/-- C2: CapEstimates replaces exactly the NaN and at-or-above-cap entries by
`normCap` and leaves the rest unchanged; afterwards no entry is NaN, every
entry is `<= normCap`, and an entry equal to `normCap` passes the converged
test of every subsequent FindConverged check. -/
theorem capEstimates_spec (machEps : ℚ) (activeEsts : Vec FVal)
    (j : ℕ) (hj : j < activeEsts.height) :
    ((CapEstimates machEps activeEsts).entry j =
       (if (activeEsts.entry j).isNan ||
            fge (activeEsts.entry j) (.fin (NormCap machEps))
        then .fin (NormCap machEps) else activeEsts.entry j)) ∧
    ((CapEstimates machEps activeEsts).entry j).isNan = false ∧
    fle ((CapEstimates machEps activeEsts).entry j) (.fin (NormCap machEps)) = true ∧
    ((CapEstimates machEps activeEsts).entry j = .fin (NormCap machEps) →
      ∀ (lastEst : FVal) (tol : ℚ),
        convergedTest (NormCap machEps) tol lastEst
          ((CapEstimates machEps activeEsts).entry j) = true) := by
  have hmain := capFold_get (NormCap machEps) (List.range activeEsts.height)
    activeEsts j (List.mem_range.mpr hj) (List.nodup_range _)
  have hval : (CapEstimates machEps activeEsts).entry j =
      (if (activeEsts.entry j).isNan ||
           fge (activeEsts.entry j) (.fin (NormCap machEps))
       then .fin (NormCap machEps) else activeEsts.entry j) := hmain
  refine ⟨hval, ?_, ?_, ?_⟩
  · rw [hval]
    rcases hv : activeEsts.entry j with _ | q
    · simp [FVal.isNan]
    · by_cases hq : NormCap machEps ≤ q <;> simp [FVal.isNan, fge, hq]
  · rw [hval]
    rcases hv : activeEsts.entry j with _ | q
    · simp [FVal.isNan, fle]
    · by_cases hq : NormCap machEps ≤ q <;> simp [FVal.isNan, fge, fle, hq]
      exact le_of_not_le hq
  · intro hcap lastEst tol
    rw [hcap]
    unfold convergedTest
    simp [fge]

/-- Witness for C2 on a concrete two-entry estimate vector. -/
theorem capEstimates_spec_witness :
    (0 < wEst1.height) ∧
    (((CapEstimates (1/2) wEst1).entry 0 =
       (if (wEst1.entry 0).isNan || fge (wEst1.entry 0) (.fin (NormCap (1/2)))
        then .fin (NormCap (1/2)) else wEst1.entry 0)) ∧
    ((CapEstimates (1/2) wEst1).entry 0).isNan = false ∧
    fle ((CapEstimates (1/2) wEst1).entry 0) (.fin (NormCap (1/2))) = true ∧
    ((CapEstimates (1/2) wEst1).entry 0 = .fin (NormCap (1/2)) →
      ∀ (lastEst : FVal) (tol : ℚ),
        convergedTest (NormCap (1/2)) tol lastEst
          ((CapEstimates (1/2) wEst1).entry 0) = true)) :=
  ⟨by decide, capEstimates_spec (1/2) wEst1 0 (by decide)⟩

/-- The final chunk absorbs the remainder: whatever block size `b` the mixed
floating-point arithmetic produced, the per-chunk sizes telescope to the
exact total. -/
theorem chunkSum_leftover_absorbs (total : ℤ) (c : ℕ) (b : ℤ) (h1 : 1 ≤ c) :
    ∑ k ∈ Finset.range c,
      (if k = c - 1 then total - ((c : ℤ) - 1) * b else b) = total := by
  obtain ⟨c', rfl⟩ : ∃ c', c = c' + 1 := ⟨c - 1, (Nat.succ_pred_eq_of_pos h1).symm⟩
  rw [Finset.sum_range_succ]
  have hothers : ∀ k ∈ Finset.range c',
      (if k = (c' + 1) - 1 then total - (((c' + 1 : ℕ) : ℤ) - 1) * b else b)
        = b := by
    intro k hk
    have hkc : k ≠ c' := Nat.ne_of_lt (Finset.mem_range.mp hk)
    simp [hkc]
  rw [Finset.sum_congr rfl hothers]
  simp only [Nat.add_sub_cancel, if_pos rfl, Finset.sum_const,
    Finset.card_range, nsmul_eq_mul]
  push_cast
  ring

/-- C4: for every total sample count and chunk count in `[1, total]` along an
axis, the driver's per-chunk sizes (the integer-division block for the first
`count-1` chunks, the leftover for the last) sum exactly to the total. -/
theorem chunkSizes_sum_to_total (total numChunks : ℕ)
    (h1 : 1 ≤ numChunks) (h2 : numChunks ≤ total) :
    ∑ k ∈ Finset.range numChunks, chunkSize total numChunks k = (total : ℤ) := by
  refine Eq.trans (Finset.sum_congr rfl ?_)
    (chunkSum_leftover_absorbs (total : ℤ) numChunks
      (chunkBlock total numChunks : ℤ) h1)
  intro k hk
  by_cases hkc : k = numChunks - 1 <;> simp [chunkSize, chunkLeftover, hkc]

/-- Witness for C4 at five samples in two chunks. -/
theorem chunkSizes_sum_to_total_witness :
    (1 ≤ 2 ∧ 2 ≤ 5) ∧
    ∑ k ∈ Finset.range 2, chunkSize 5 2 k = (5 : ℤ) :=
  ⟨by decide, chunkSizes_sum_to_total 5 2 (by decide) (by decide)⟩

/-- Counterexample for C6 as stated: on a non-square 1×2 grid the optimized
flat copy and the per-column reference layout disagree at entry `(0,1)`
(the flat copy stores the second sample there; the reference layout never
writes that position). -/
theorem reshapeIntoGrid_layout_counterexample :
    (ReshapeIntoGrid 1 2 (Vec.ofList [(1 : ℚ), 2] 0)).entry 0 1 ≠
      (ReshapeIntoGridPerColumn 1 2 (Vec.ofList [(1 : ℚ), 2] 0) 0).entry 0 1 := by
  decide

/-- C6 (amended): on square grids (`realSize = imagSize`) the optimized
sequential ReshapeIntoGrid produces the same grid as the per-column
reference layout of the distributed variant. -/
theorem reshapeIntoGrid_square_agrees {α : Type} (n : ℕ) (x : Vec α)
    (init : α) (i j : ℕ) (hi : i < n) (hj : j < n) :
    (ReshapeIntoGrid n n x).entry i j =
      (ReshapeIntoGridPerColumn n n x init).entry i j ∧
    (ReshapeIntoGrid n n x).rows = (ReshapeIntoGridPerColumn n n x init).rows ∧
    (ReshapeIntoGrid n n x).cols = (ReshapeIntoGridPerColumn n n x init).cols := by
  refine ⟨?_, rfl, rfl⟩
  show x.entry (i + j * n) = if j < n ∧ i < n then x.entry (j * n + i) else init
  rw [if_pos ⟨hj, hi⟩, Nat.add_comm]

/-- Witness for the amended C6 on a 2×2 grid. -/
theorem reshapeIntoGrid_square_agrees_witness :
    (0 < 2 ∧ 1 < 2) ∧
    ((ReshapeIntoGrid 2 2 wQ4).entry 0 1 =
      (ReshapeIntoGridPerColumn 2 2 wQ4 0).entry 0 1 ∧
    (ReshapeIntoGrid 2 2 wQ4).rows = (ReshapeIntoGridPerColumn 2 2 wQ4 0).rows ∧
    (ReshapeIntoGrid 2 2 wQ4).cols = (ReshapeIntoGridPerColumn 2 2 wQ4 0).cols) :=
  ⟨by decide, reshapeIntoGrid_square_agrees 2 wQ4 0 0 1 (by decide) (by decide)⟩

/-- Folding the column-fix step over columns other than `j` leaves column `j`
untouched. -/
theorem fixFold_frame (nrm : Vec ℚ → ℚ) (gauss : ℕ → Vec ℚ) (X : Mat ℚ) :
    ∀ (l : List ℕ) (acc : Mat ℚ) (j i : ℕ), j ∉ l →
      (l.foldl (fixStep nrm gauss X) acc).entry i j = acc.entry i j := by
  intro l
  induction l with
  | nil => intro acc j i _; rfl
  | cons a t ih =>
    intro acc j i h
    rw [List.foldl_cons, ih _ j i (fun hit => h (List.mem_cons_of_mem a hit))]
    have hja : j ≠ a := fun hh => h (hh ▸ List.mem_cons_self a t)
    simp [fixStep, Mat.setCol, hja]

/-- The column-fix loop rewrites each processed column from the original
matrix's column (norms are precomputed before the loop, and iteration `j`
touches only column `j`). -/
theorem fixFold_get (nrm : Vec ℚ → ℚ) (gauss : ℕ → Vec ℚ) (X : Mat ℚ) :
    ∀ (l : List ℕ) (acc : Mat ℚ) (j : ℕ), j ∈ l → l.Nodup → ∀ i,
      (l.foldl (fixStep nrm gauss X) acc).entry i j =
        (fixColumn nrm (gauss j) (X.col j)).1.entry i := by
  intro l
  induction l with
  | nil => intro acc j hj _ _; cases hj
  | cons a t ih =>
    intro acc j hj hnd i
    rw [List.foldl_cons]
    rcases List.mem_cons.mp hj with rfl | hjt
    · rw [fixFold_frame nrm gauss X t _ j i (List.nodup_cons.mp hnd).1]
      simp [fixStep, Mat.setCol]
    · exact ih _ j hjt (List.nodup_cons.mp hnd).2 i

/-- C8: FixColumns never divides by a zero norm — a zero-norm column is
replaced by the fresh random column and its recomputed (nonzero) norm is the
divisor, a nonzero-norm column keeps its own norm — and every column of the
result is the corresponding (possibly repaired) column scaled by the
reciprocal of that divisor. -/
theorem fixColumns_total_and_scales (nrm : Vec ℚ → ℚ) (gauss : ℕ → Vec ℚ)
    (X : Mat ℚ) (hg : ∀ j, nrm (gauss j) ≠ 0) (j : ℕ) (hj : j < X.cols)
    (i : ℕ) :
    FixColumnsDivisor nrm gauss X j ≠ 0 ∧
    (nrm (X.col j) = 0 → FixColumnsDivisor nrm gauss X j = nrm (gauss j)) ∧
    (nrm (X.col j) ≠ 0 → FixColumnsDivisor nrm gauss X j = nrm (X.col j)) ∧
    (FixColumns nrm gauss X).entry i j =
      (1 / FixColumnsDivisor nrm gauss X j) *
        ((if nrm (X.col j) = 0 then gauss j else X.col j).entry i) := by
  have hentry : (FixColumns nrm gauss X).entry i j =
      (fixColumn nrm (gauss j) (X.col j)).1.entry i := by
    rw [FixColumns]
    exact fixFold_get nrm gauss X _ X j (List.mem_range.mpr hj)
      (List.nodup_range _) i
  by_cases h0 : nrm (X.col j) = 0
  · refine ⟨?_, fun _ => ?_, fun hcon => absurd h0 hcon, ?_⟩
    · simp [FixColumnsDivisor, fixColumn, h0, hg j]
    · simp [FixColumnsDivisor, fixColumn, h0]
    · rw [hentry]
      simp [fixColumn, FixColumnsDivisor, h0, scaleVec]
  · refine ⟨?_, fun hcon => absurd hcon h0, fun _ => ?_, ?_⟩
    · simp [FixColumnsDivisor, fixColumn, h0]
    · simp [FixColumnsDivisor, fixColumn, h0]
    · rw [hentry]
      simp [fixColumn, FixColumnsDivisor, h0, scaleVec]

/-- Witness for C8 on a 2×2 matrix whose first column is zero. -/
theorem fixColumns_total_and_scales_witness :
    (∀ j, wNrm (wGauss j) ≠ 0) ∧ 0 < wX.cols ∧
    (FixColumnsDivisor wNrm wGauss wX 0 ≠ 0 ∧
    (wNrm (wX.col 0) = 0 → FixColumnsDivisor wNrm wGauss wX 0 = wNrm (wGauss 0)) ∧
    (wNrm (wX.col 0) ≠ 0 → FixColumnsDivisor wNrm wGauss wX 0 = wNrm (wX.col 0)) ∧
    (FixColumns wNrm wGauss wX).entry 0 0 =
      (1 / FixColumnsDivisor wNrm wGauss wX 0) *
        ((if wNrm (wX.col 0) = 0 then wGauss 0 else wX.col 0).entry 0)) :=
  ⟨fun j => by unfold wGauss; decide, by decide,
   fixColumns_total_and_scales wNrm wGauss wX (fun j => by unfold wGauss; decide) 0
     (by decide) 0⟩

/-- C9: every overload of `socp::affine::KKT` (dense, distributed, sparse,
distributed-sparse) fails on entry with the `LogicError` "This routine is
not yet finished" for every input, and returns its output matrix `J`
unmodified. -/
theorem socpAffineKKT_all_overloads_stubbed :
    ∀ (A G : Mat ℚ) (s z : Vec ℚ) (orders firstInds : Vec ℤ) (J : Mat ℚ)
      (As Gs : SparseMat ℚ) (Js : SparseMat ℚ) (onlyLower : Bool),
      socpAffineKKT A G s z orders firstInds J onlyLower =
        (Except.error kktNotFinishedMsg, J) ∧
      socpAffineKKTDist A G s z orders firstInds J onlyLower =
        (Except.error kktNotFinishedMsg, J) ∧
      socpAffineKKTSparse As Gs s z orders firstInds Js onlyLower =
        (Except.error kktNotFinishedMsg, Js) ∧
      socpAffineKKTDistSparse As Gs s z orders firstInds Js onlyLower =
        (Except.error kktNotFinishedMsg, Js) :=
  fun _ _ _ _ _ _ _ _ _ _ _ => ⟨rfl, rfl, rfl, rfl⟩

/-- C5: on a nonempty grid, the numeric channel fires exactly when
`numFreq > 0` and `numSaveCount >= numFreq` and its counter is reset to zero
exactly then; the image channel behaves identically with its own counter;
the image writes receive the entrywise `Log` of the reshaped grid while the
numeric write receives the raw estimates; a non-positive frequency never
triggers its channel and never resets its counter. -/
theorem snapshot_channel_triggers (logFn : FVal → FVal) (estimates : Vec FVal)
    (preimage : Vec ℕ) (numIts : ℤ) (deflate : Bool) (realSize imagSize : ℕ)
    (numSaveCount numFreq : ℤ) (numBase : String)
    (imgSaveCount imgFreq : ℤ) (imgBase : String)
    (hr : realSize ≠ 0) (hi : imagSize ≠ 0) :
    ((Snapshot logFn estimates preimage numIts deflate realSize imagSize
        numSaveCount numFreq numBase imgSaveCount imgFreq imgBase).numWrites ≠ [] ↔
      (0 < numFreq ∧ numFreq ≤ numSaveCount)) ∧
    ((Snapshot logFn estimates preimage numIts deflate realSize imagSize
        numSaveCount numFreq numBase imgSaveCount imgFreq imgBase).numSaveCount =
      (if 0 < numFreq ∧ numFreq ≤ numSaveCount then 0 else numSaveCount)) ∧
    ((Snapshot logFn estimates preimage numIts deflate realSize imagSize
        numSaveCount numFreq numBase imgSaveCount imgFreq imgBase).imgWrites ≠ [] ↔
      (0 < imgFreq ∧ imgFreq ≤ imgSaveCount)) ∧
    ((Snapshot logFn estimates preimage numIts deflate realSize imagSize
        numSaveCount numFreq numBase imgSaveCount imgFreq imgBase).imgSaveCount =
      (if 0 < imgFreq ∧ imgFreq ≤ imgSaveCount then 0 else imgSaveCount)) ∧
    (∀ w ∈ (Snapshot logFn estimates preimage numIts deflate realSize imagSize
        numSaveCount numFreq numBase imgSaveCount imgFreq imgBase).numWrites,
      w.2 = ReshapeIntoGrid realSize imagSize
        (if deflate then RestoreOrdering preimage estimates else estimates)) ∧
    (∀ w ∈ (Snapshot logFn estimates preimage numIts deflate realSize imagSize
        numSaveCount numFreq numBase imgSaveCount imgFreq imgBase).imgWrites,
      w.2 = matMap logFn (ReshapeIntoGrid realSize imagSize
        (if deflate then RestoreOrdering preimage estimates else estimates))) ∧
    (numFreq ≤ 0 →
      (Snapshot logFn estimates preimage numIts deflate realSize imagSize
        numSaveCount numFreq numBase imgSaveCount imgFreq imgBase).numWrites = [] ∧
      (Snapshot logFn estimates preimage numIts deflate realSize imagSize
        numSaveCount numFreq numBase imgSaveCount imgFreq imgBase).numSaveCount
        = numSaveCount) ∧
    (imgFreq ≤ 0 →
      (Snapshot logFn estimates preimage numIts deflate realSize imagSize
        numSaveCount numFreq numBase imgSaveCount imgFreq imgBase).imgWrites = [] ∧
      (Snapshot logFn estimates preimage numIts deflate realSize imagSize
        numSaveCount numFreq numBase imgSaveCount imgFreq imgBase).imgSaveCount
        = imgSaveCount) := by
  by_cases hn : 0 < numFreq ∧ numFreq ≤ numSaveCount
  · by_cases hm : 0 < imgFreq ∧ imgFreq ≤ imgSaveCount
    · have hn0 : ¬numFreq ≤ 0 := not_le.mpr hn.1
      have hm0 : ¬imgFreq ≤ 0 := not_le.mpr hm.1
      simp [Snapshot, hr, hi, hn, hm, hn0, hm0]
    · have hn0 : ¬numFreq ≤ 0 := not_le.mpr hn.1
      simp [Snapshot, hr, hi, hn, hm, hn0]
  · by_cases hm : 0 < imgFreq ∧ imgFreq ≤ imgSaveCount
    · have hm0 : ¬imgFreq ≤ 0 := not_le.mpr hm.1
      simp [Snapshot, hr, hi, hn, hm, hm0]
    · simp [Snapshot, hr, hi, hn, hm]

/-- Witness for C5 on a 1×2 grid with the numeric channel due and the image
channel disabled. -/
theorem snapshot_channel_triggers_witness :
    ((1 : ℕ) ≠ 0 ∧ (2 : ℕ) ≠ 0) ∧
    (((Snapshot id wEst1 wPreId 3 false 1 2 2 1 "snap" 0 0 "logSnap").numWrites ≠ [] ↔
      ((0:ℤ) < 1 ∧ (1:ℤ) ≤ 2)) ∧
    ((Snapshot id wEst1 wPreId 3 false 1 2 2 1 "snap" 0 0 "logSnap").numSaveCount =
      (if (0:ℤ) < 1 ∧ (1:ℤ) ≤ 2 then 0 else 2)) ∧
    ((Snapshot id wEst1 wPreId 3 false 1 2 2 1 "snap" 0 0 "logSnap").imgWrites ≠ [] ↔
      ((0:ℤ) < 0 ∧ (0:ℤ) ≤ 0)) ∧
    ((Snapshot id wEst1 wPreId 3 false 1 2 2 1 "snap" 0 0 "logSnap").imgSaveCount =
      (if (0:ℤ) < 0 ∧ (0:ℤ) ≤ 0 then 0 else 0)) ∧
    (∀ w ∈ (Snapshot id wEst1 wPreId 3 false 1 2 2 1 "snap" 0 0 "logSnap").numWrites,
      w.2 = ReshapeIntoGrid 1 2
        (if false then RestoreOrdering wPreId wEst1 else wEst1)) ∧
    (∀ w ∈ (Snapshot id wEst1 wPreId 3 false 1 2 2 1 "snap" 0 0 "logSnap").imgWrites,
      w.2 = matMap id (ReshapeIntoGrid 1 2
        (if false then RestoreOrdering wPreId wEst1 else wEst1))) ∧
    ((1:ℤ) ≤ 0 →
      (Snapshot id wEst1 wPreId 3 false 1 2 2 1 "snap" 0 0 "logSnap").numWrites = [] ∧
      (Snapshot id wEst1 wPreId 3 false 1 2 2 1 "snap" 0 0 "logSnap").numSaveCount = 2) ∧
    ((0:ℤ) ≤ 0 →
      (Snapshot id wEst1 wPreId 3 false 1 2 2 1 "snap" 0 0 "logSnap").imgWrites = [] ∧
      (Snapshot id wEst1 wPreId 3 false 1 2 2 1 "snap" 0 0 "logSnap").imgSaveCount = 0)) :=
  ⟨⟨by decide, by decide⟩,
   snapshot_channel_triggers id wEst1 wPreId 3 false 1 2 2 1 "snap" 0 0 "logSnap"
     (by decide) (by decide)⟩

/-- C10: with an empty grid (`realSize = 0` or `imagSize = 0`), Snapshot
writes nothing and leaves both save counters unchanged, whatever the other
arguments are. -/
theorem snapshot_empty_grid_frame (logFn : FVal → FVal) (estimates : Vec FVal)
    (preimage : Vec ℕ) (numIts : ℤ) (deflate : Bool) (realSize imagSize : ℕ)
    (numSaveCount numFreq : ℤ) (numBase : String)
    (imgSaveCount imgFreq : ℤ) (imgBase : String)
    (h : realSize = 0 ∨ imagSize = 0) :
    Snapshot logFn estimates preimage numIts deflate realSize imagSize
        numSaveCount numFreq numBase imgSaveCount imgFreq imgBase =
      ⟨numSaveCount, imgSaveCount, [], []⟩ := by
  unfold Snapshot
  rcases h with h | h
  · rw [if_neg (by simp [h])]
  · rw [if_neg (by simp [h])]

/-- Witness for C10 with zero real samples but both channels due. -/
theorem snapshot_empty_grid_frame_witness :
    ((0 : ℕ) = 0 ∨ (2 : ℕ) = 0) ∧
    Snapshot id wEst1 wPreId 3 true 0 2 5 1 "snap" 5 1 "logSnap" =
      ⟨5, 5, [], []⟩ :=
  ⟨Or.inl rfl,
   snapshot_empty_grid_frame id wEst1 wPreId 3 true 0 2 5 1 "snap" 5 1 "logSnap"
     (Or.inl rfl)⟩

end Elem
